import Mathlib

/-!
Shallow embedding of the transform framework in `transforms/transform.py`
(plus the minimal parts of the fvcore base classes that this repository
imports and that the spec describes), together with theorems settling the
frozen claims about it.

Conventions of the embedding:
* Machine floats are modelled by `ℚ` where the source only does field
  arithmetic, and by `ℝ` where it uses trigonometry (`RotationTransform`,
  `Resize_rotated_box`).
* Coordinate arrays (numpy N x 2 arrays) are `List (ℚ × ℚ)` resp.
  `List (ℝ × ℝ)`; images are index functions with explicit dimensions.
* Exceptions (`raise NotImplementedError`) become an explicit result
  constructor; numpy in-place mutation is made visible where a claim is
  about it, via an explicit store of arrays (`Store`).
-/

/-- PIL interpolation code `Image.NEAREST`. -/
def imageNEAREST : ℤ := 0

/-- PIL interpolation code `Image.BILINEAR` (= `Image.LINEAR`). -/
def imageBILINEAR : ℤ := 2

/-- PIL interpolation code `Image.BICUBIC`. -/
def imageBICUBIC : ℤ := 3

/-- OpenCV interpolation code `cv2.INTER_LINEAR`. -/
def cvINTER_LINEAR : ℤ := 1

/-- `ResizeTransform` state: original size `(h, w)`, target size
`(new_h, new_w)` and the PIL interpolation code, all fixed at
construction (`transform.py` lines 105-116). -/
structure ResizeTransform where
  h : ℤ
  w : ℤ
  new_h : ℤ
  new_w : ℤ
  interp : ℤ

/-- Constructor of `ResizeTransform`: a `None` interpolation defaults to
`Image.BILINEAR` (`transform.py` lines 113-116). -/
def mkResizeTransform (h w new_h new_w : ℤ) (interp : Option ℤ) : ResizeTransform :=
  { h := h, w := w, new_h := new_h, new_w := new_w, interp := interp.getD imageBILINEAR }

/-- `ResizeTransform.apply_coords` (`transform.py` lines 156-159):
`coords[:, 0] = coords[:, 0] * (new_w * 1.0 / w)` and
`coords[:, 1] = coords[:, 1] * (new_h * 1.0 / h)`. -/
def ResizeTransform.apply_coords (t : ResizeTransform) (coords : List (ℚ × ℚ)) :
    List (ℚ × ℚ) :=
  coords.map fun p =>
    (p.1 * ((t.new_w : ℚ) * 1 / (t.w : ℚ)), p.2 * ((t.new_h : ℚ) * 1 / (t.h : ℚ)))

/-- `ResizeTransform.inverse` (`transform.py` lines 165-166):
`ResizeTransform(new_h, new_w, h, w, interp)`. -/
def ResizeTransform.inverse (t : ResizeTransform) : ResizeTransform :=
  mkResizeTransform t.new_h t.new_w t.h t.w (some t.interp)

/-- Python float modulo `a % b` (`a - b * floor (a / b)`), used by
`RotationTransform` in the test `self.angle % 360 == 0`. -/
def floatMod (a b : ℚ) : ℚ := a - b * ⌊a / b⌋

/-- An image buffer: height, width, channel count and the pixel values
as an index function (out-of-range indices are irrelevant padding). -/
structure Img where
  H : ℕ
  W : ℕ
  C : ℕ
  pix : ℕ → ℕ → ℕ → ℤ

/-- Application of a 2 x 3 affine matrix to a point, the semantics of
`cv2.transform` on an N x 1 x 2 array (numeric backend, spec section 6). -/
def affineApply (m : Fin 2 → Fin 3 → ℝ) (p : ℝ × ℝ) : ℝ × ℝ :=
  (m 0 0 * p.1 + m 0 1 * p.2 + m 0 2, m 1 0 * p.1 + m 1 1 * p.2 + m 1 2)

open Classical in
/-- Modelled from the spec: `np.rint` of the numeric backend, rounding
half to even as numpy does. -/
noncomputable def rint (x : ℝ) : ℤ :=
  if Int.fract x = 1 / 2 then (if Even ⌊x⌋ then ⌊x⌋ else ⌊x⌋ + 1) else round x

/-- `RotationTransform.create_rotation_matrix` (`transform.py` lines
231-243): `cv2.getRotationMatrix2D((cx, cy), angle, 1)` yields the rows
`(cos, sin, (1 - cos) cx - sin cy)` and `(-sin, cos, sin cx + (1 - cos) cy)`;
with `expand` the translation column is shifted so that the rotated image
center lands at the center of the expanded canvas. -/
noncomputable def createRM (angle : ℚ) (expand : Bool) (center image_center : ℝ × ℝ)
    (bound_w bound_h : ℤ) (offset : ℝ) : Fin 2 → Fin 3 → ℝ :=
  let cx := center.1 + offset
  let cy := center.2 + offset
  let θ := (angle : ℝ) * Real.pi / 180
  let α := Real.cos θ
  let β := Real.sin θ
  let rm : Fin 2 → Fin 3 → ℝ :=
    ![![α, β, (1 - α) * cx - β * cy], ![-β, α, β * cx + (1 - α) * cy]]
  if expand then
    let ric := affineApply rm (image_center.1 + offset, image_center.2 + offset)
    let ncx := (bound_w : ℝ) / 2 + offset - ric.1
    let ncy := (bound_h : ℝ) / 2 + offset - ric.2
    ![![rm 0 0, rm 0 1, rm 0 2 + ncx], ![rm 1 0, rm 1 1, rm 1 2 + ncy]]
  else rm

/-- `RotationTransform` state: all construction-time parameters and the
two derived matrices (`transform.py` lines 175-206). -/
structure RotationTransform where
  h : ℤ
  w : ℤ
  angle : ℚ
  expand : Bool
  center : ℝ × ℝ
  interp : ℤ
  image_center : ℝ × ℝ
  bound_w : ℤ
  bound_h : ℤ
  rm_coords : Fin 2 → Fin 3 → ℝ
  rm_image : Fin 2 → Fin 3 → ℝ

/-- Constructor of `RotationTransform` (`transform.py` lines 175-206): a
`None` center defaults to the image center, a `None` interpolation to
`cv2.INTER_LINEAR`; with `expand` the canvas bounds are
`np.rint([h |sin| + w |cos|, h |cos| + w |sin|])`, otherwise `(w, h)`. -/
noncomputable def mkRotation (h w : ℤ) (angle : ℚ) (expand : Bool)
    (center : Option (ℝ × ℝ)) (interp : Option ℤ) : RotationTransform :=
  let image_center : ℝ × ℝ := ((w : ℝ) / 2, (h : ℝ) / 2)
  let c := center.getD image_center
  let ip := interp.getD cvINTER_LINEAR
  let θ := (angle : ℝ) * Real.pi / 180
  let abs_cos := |Real.cos θ|
  let abs_sin := |Real.sin θ|
  let bw := if expand then rint ((h : ℝ) * abs_sin + (w : ℝ) * abs_cos) else w
  let bh := if expand then rint ((h : ℝ) * abs_cos + (w : ℝ) * abs_sin) else h
  { h := h, w := w, angle := angle, expand := expand, center := c, interp := ip,
    image_center := image_center, bound_w := bw, bound_h := bh,
    rm_coords := createRM angle expand c image_center bw bh 0,
    rm_image := createRM angle expand c image_center bw bh (-(1 / 2)) }

/-- `RotationTransform.apply_image` (`transform.py` lines 208-216): empty
images and angles that are exact multiples of 360 return the input
unchanged; otherwise the shape is asserted (modelled by `none` on
failure) and `cv2.warpAffine` is applied. The warp itself belongs to the
numeric backend (spec section 6) and is a parameter, taking the matrix,
the canvas bounds, the interpolation flag and the image. -/
def RotationTransform.apply_image
    (warp : (Fin 2 → Fin 3 → ℝ) → ℤ → ℤ → ℤ → Img → Img)
    (t : RotationTransform) (img : Img) : Option Img :=
  if img.H = 0 ∨ floatMod t.angle 360 = 0 then some img
  else if (img.H : ℤ) = t.h ∧ (img.W : ℤ) = t.w then
    some (warp t.rm_image t.bound_w t.bound_h t.interp img)
  else none

/-- `RotationTransform.apply_coords` (`transform.py` lines 218-225):
empty arrays and angles that are exact multiples of 360 return the input
unchanged; otherwise the stored `rm_coords` matrix is applied via
`cv2.transform`. -/
def RotationTransform.apply_coords (t : RotationTransform) (coords : List (ℝ × ℝ)) :
    List (ℝ × ℝ) :=
  if coords.length = 0 ∨ floatMod t.angle 360 = 0 then coords
  else coords.map (affineApply t.rm_coords)

/-- Values returned by `inverse()` across the transform classes of the
repository: `NoOpTransform`, `CropTransform (x0, y0, w, h)` and
`RotationTransform` are from the fvcore base module the repository
imports, modelled from the spec (sections 4.1-4.3); `tlist` is a
`TransformList`. -/
inductive TransformVal where
  | noOp : TransformVal
  | crop (x0 y0 w h : ℤ) : TransformVal
  | rotation (r : RotationTransform) : TransformVal
  | tlist (ts : List TransformVal) : TransformVal

/-- Outcome of `inverse()`: either a transform value, or the
`raise NotImplementedError()` branch. -/
inductive InvResult where
  | ok (t : TransformVal) : InvResult
  | notImplemented : InvResult

/-- `RotationTransform.inverse` (`transform.py` lines 245-258): raises
when `expand` is false; otherwise a `TransformList` of a rotation of the
bounded canvas by `-angle` with expansion and a centered crop of the
original `(w, h)` (Python `//` is floor division, `Int.fdiv`). -/
noncomputable def RotationTransform.inverse (t : RotationTransform) : InvResult :=
  if t.expand then
    let rotation := mkRotation t.bound_h t.bound_w (-t.angle) true none (some t.interp)
    InvResult.ok (TransformVal.tlist
      [TransformVal.rotation rotation,
        TransformVal.crop ((rotation.bound_w - t.w).fdiv 2)
          ((rotation.bound_h - t.h).fdiv 2) t.w t.h])
  else InvResult.notImplemented

/-- `LetterboxTransform` state (`transform.py` lines 345-347). -/
structure LetterboxTransform where
  target_size : ℤ × ℤ
  scale : ℚ
  dx : ℚ
  dy : ℚ

/-- `LetterboxTransform.apply_coords` (`transform.py` lines 360-366):
scale both columns by `scale`, then add the offsets `(dx, dy)` (the
`astype` copy is treated in the store-passing version below). -/
def LetterboxTransform.apply_coords (t : LetterboxTransform) (coords : List (ℚ × ℚ)) :
    List (ℚ × ℚ) :=
  coords.map fun p => (p.1 * t.scale + t.dx, p.2 * t.scale + t.dy)

/-- `LetterboxTransform.inverse` (`transform.py` lines 368-369): returns
`NoOpTransform()`. -/
def LetterboxTransform.inverse (t : LetterboxTransform) : InvResult :=
  InvResult.ok TransformVal.noOp

/-- `PerspectiveTransform` state (`transform.py` lines 381-383): the 3 x 3
matrix, the perspective flag and the border pair. -/
structure PerspectiveTransform where
  M : Matrix (Fin 3) (Fin 3) ℚ
  perspective : Bool
  border : ℤ × ℤ

/-- `PerspectiveTransform.apply_coords` (`transform.py` lines 396-405):
append a homogeneous 1, multiply by `M.T` (so each point becomes
`M.mulVec (x, y, 1)`), then divide by the third coordinate in the
perspective case and drop it in the affine case. -/
def PerspectiveTransform.apply_coords (t : PerspectiveTransform) (coords : List (ℚ × ℚ)) :
    List (ℚ × ℚ) :=
  coords.map fun p =>
    let v : Fin 3 → ℚ := t.M.mulVec ![p.1, p.2, 1]
    if t.perspective then (v 0 / v 2, v 1 / v 2) else (v 0, v 1)

/-- `PerspectiveTransform.inverse` (`transform.py` lines 407-408):
returns `NoOpTransform()`. -/
def PerspectiveTransform.inverse (t : PerspectiveTransform) : InvResult :=
  InvResult.ok TransformVal.noOp

/-- `ExtentTransform` state (`transform.py` lines 52-61). -/
structure ExtentTransform where
  src_rect : ℚ × ℚ × ℚ × ℚ
  output_size : ℤ × ℤ
  interp : ℤ
  fill : ℤ

/-- `ExtentTransform.apply_coords` (`transform.py` lines 81-93): shift
the source-rect center to the origin, scale by output over source
extent, shift to the output center (the `astype` copy is treated in the
store-passing version below). -/
def ExtentTransform.apply_coords (t : ExtentTransform) (coords : List (ℚ × ℚ)) :
    List (ℚ × ℚ) :=
  let h := t.output_size.1
  let w := t.output_size.2
  let x0 := t.src_rect.1
  let y0 := t.src_rect.2.1
  let x1 := t.src_rect.2.2.1
  let y1 := t.src_rect.2.2.2
  coords.map fun p =>
    let xa := p.1 - 1 / 2 * (x0 + x1)
    let ya := p.2 - 1 / 2 * (y0 + y1)
    let xb := xa * ((w : ℚ) / (x1 - x0))
    let yb := ya * ((h : ℚ) / (y1 - y0))
    (xb + 1 / 2 * (w : ℚ), yb + 1 / 2 * (h : ℚ))

/-- A store of numpy coordinate arrays: in-place column assignment
versus `astype` copying is made visible by passing arrays by index. -/
abbrev Store := List (List (ℚ × ℚ))

/-- Store-passing form of `ResizeTransform.apply_coords`
(`transform.py` lines 156-159): the column assignments
`coords[:, i] = ...` write into the array at `p` itself, and that same
array is returned. -/
def ResizeTransform.apply_coords_st (t : ResizeTransform) (σ : Store) (p : ℕ) :
    Store × ℕ :=
  (σ.set p (t.apply_coords (σ.getD p [])), p)

/-- Store-passing form of `ExtentTransform.apply_coords`
(`transform.py` lines 81-93): `coords.astype(np.float32)` allocates a
fresh array, the input array at `p` is left untouched, and the fresh
array is returned. -/
def ExtentTransform.apply_coords_st (t : ExtentTransform) (σ : Store) (p : ℕ) :
    Store × ℕ :=
  (σ ++ [t.apply_coords (σ.getD p [])], σ.length)

/-- Store-passing form of `LetterboxTransform.apply_coords`
(`transform.py` lines 360-366): as for `ExtentTransform`, the `astype`
copy leaves the input array at `p` untouched and a fresh array is
returned. -/
def LetterboxTransform.apply_coords_st (t : LetterboxTransform) (σ : Store) (p : ℕ) :
    Store × ℕ :=
  (σ ++ [t.apply_coords (σ.getD p [])], σ.length)

/-- `CutoutTransform` state (`transform.py` lines 440-442): the region
`(x, y, w, h)`. -/
structure CutoutTransform where
  region : ℕ × ℕ × ℕ × ℕ

/-- `CutoutTransform.apply_image` (`transform.py` lines 444-450):
`x2 = min(W - 1, x + w)`, `y2 = min(H - 1, y + h)` and the slice
assignment `img[y:y2, x:x2, :] = 0`, which zeroes rows `y ≤ i < y2` and
columns `x ≤ j < x2`. -/
def CutoutTransform.apply_image (t : CutoutTransform) (img : Img) : Img :=
  let x := t.region.1
  let y := t.region.2.1
  let w := t.region.2.2.1
  let h := t.region.2.2.2
  let x2 := min (img.W - 1) (x + w)
  let y2 := min (img.H - 1) (y + h)
  { img with pix := fun i j k =>
      if y ≤ i ∧ i < y2 ∧ x ≤ j ∧ j < x2 then 0 else img.pix i j k }

/-- `CutoutTransform.apply_coords` (`transform.py` lines 452-453):
identity. -/
def CutoutTransform.apply_coords (t : CutoutTransform) (coords : List (ℚ × ℚ)) :
    List (ℚ × ℚ) :=
  coords

/-- `ColorDistortTransform` state (`transform.py` lines 299-301): the
four optional distortion parameters. -/
structure ColorDistortTransform where
  alpha : Option ℚ
  beta : Option ℚ
  h_delta : Option ℤ
  s_alpha : Option ℚ

/-- Clipping of `_convert` (`transform.py` lines 305-306):
`tmp[tmp < 0] = 0` then `tmp[tmp > 255] = 255`. -/
def clip255 (x : ℚ) : ℚ := if x < 0 then 0 else if 255 < x then 255 else x

/-- `ColorDistortTransform._convert` on one channel value
(`transform.py` lines 303-307): scale and shift in float, clip to
`[0, 255]`, write back into the uint8 buffer (truncation; the clipped
value is nonnegative, so truncation is the floor). -/
def convertVal (v : ℤ) (alpha beta : ℚ) : ℤ := ⌊clip255 ((v : ℚ) * alpha + beta)⌋

/-- `ColorDistortTransform.apply_image` before the HSV conversion
(`transform.py` lines 310-315): optional brightness shift `beta`, then
optional contrast scale `alpha`, channel-wise on BGR pixels. -/
def ColorDistortTransform.preStage (t : ColorDistortTransform)
    (img : List (ℤ × ℤ × ℤ)) : List (ℤ × ℤ × ℤ) :=
  let i1 := match t.beta with
    | none => img
    | some b => img.map fun p => (convertVal p.1 1 b, convertVal p.2.1 1 b, convertVal p.2.2 1 b)
  match t.alpha with
  | none => i1
  | some a => i1.map fun p => (convertVal p.1 a 0, convertVal p.2.1 a 0, convertVal p.2.2 a 0)

/-- `ColorDistortTransform.apply_image` between the two color-space
conversions (`transform.py` lines 318-324), on HSV pixels: with
`h_delta` present the hue channel becomes `(hue + h_delta) % 180`
(Python integer modulo, nonnegative), then with `s_alpha` present the
saturation channel is scaled by `_convert`. -/
def ColorDistortTransform.hsvStage (t : ColorDistortTransform)
    (img : List (ℤ × ℤ × ℤ)) : List (ℤ × ℤ × ℤ) :=
  let i1 := match t.h_delta with
    | none => img
    | some d => img.map fun p => ((p.1 + d) % 180, p.2.1, p.2.2)
  match t.s_alpha with
  | none => i1
  | some a => i1.map fun p => (p.1, convertVal p.2.1 a 0, p.2.2)

/-- `ColorDistortTransform.apply_image` (`transform.py` lines 309-327):
the BGR-space stage, `cv2.cvtColor(-, COLOR_BGR2HSV)`, the HSV-space
stage, `cv2.cvtColor(-, COLOR_HSV2BGR)`. The two conversions belong to
the external color-space collaborator (spec section 6) and are
parameters. -/
def ColorDistortTransform.apply_image
    (bgr2hsv hsv2bgr : List (ℤ × ℤ × ℤ) → List (ℤ × ℤ × ℤ))
    (t : ColorDistortTransform) (img : List (ℤ × ℤ × ℤ)) : List (ℤ × ℤ × ℤ) :=
  hsv2bgr (t.hsvStage (bgr2hsv (t.preStage img)))

/-- A rotated box `(center_x, center_y, width, height, angle_degrees)`. -/
structure RBox where
  cx : ℝ
  cy : ℝ
  w : ℝ
  h : ℝ
  a : ℝ

/-- Modelled from the spec: the fvcore `HFlipTransform`, which captures
the image width at construction (spec section 4.2). -/
structure HFlipTransform where
  width : ℝ

/-- `HFlip_rotated_box` (`transform.py` lines 456-468): first
`boxes[:, 0] = width - boxes[:, 0]`, then `boxes[:, 4] = -boxes[:, 4]`. -/
def HFlip_rotated_box (t : HFlipTransform) (boxes : List RBox) : List RBox :=
  boxes.map fun b =>
    let b0 := { b with cx := t.width - b.cx }
    { b0 with a := -b0.a }

open Classical in
/-- Modelled from the spec: `np.arctan2` of the numeric backend
(section 6), with the standard quadrant-correct semantics. -/
noncomputable def arctan2 (y x : ℝ) : ℝ :=
  if 0 < x then Real.arctan (y / x)
  else if x < 0 then
    (if 0 ≤ y then Real.arctan (y / x) + Real.pi else Real.arctan (y / x) - Real.pi)
  else
    (if 0 < y then Real.pi / 2 else if y < 0 then -(Real.pi / 2) else 0)

/-- `Resize_rotated_box` (`transform.py` lines 471-494): the columns are
updated in source order — center x by `sx`, center y by `sy`, then with
`θ` read from the still-unchanged angle column, width by
`sqrt((sx cos θ)² + (sy sin θ)²)`, height by
`sqrt((sx sin θ)² + (sy cos θ)²)`, and finally the angle column becomes
`arctan2(sx sin θ, sy cos θ)` in degrees. -/
noncomputable def Resize_rotated_box (t : ResizeTransform) (boxes : List RBox) :
    List RBox :=
  let sx : ℝ := (t.new_w : ℝ) * 1 / (t.w : ℝ)
  let sy : ℝ := (t.new_h : ℝ) * 1 / (t.h : ℝ)
  boxes.map fun b =>
    let b0 := { b with cx := b.cx * sx }
    let b1 := { b0 with cy := b0.cy * sy }
    let θ := b1.a * Real.pi / 180
    let c := Real.cos θ
    let s := Real.sin θ
    let b2 := { b1 with w := b1.w * Real.sqrt ((sx * c) ^ 2 + (sy * s) ^ 2) }
    let b3 := { b2 with h := b2.h * Real.sqrt ((sx * s) ^ 2 + (sy * c) ^ 2) }
    { b3 with a := arctan2 (sx * s) (sy * c) * 180 / Real.pi }

/-- Modelled from the spec: the fvcore `NoOpTransform` (section 4.2),
which carries no state. -/
inductive NoOpTransform where
  | mk : NoOpTransform

/-- The per-class dispatch table of `HFlipTransform` after the
registration `HFlipTransform.register_type("rotated_box", HFlip_rotated_box)`
(`transform.py` line 497). -/
def HFlipTransform.registry : List (String × (HFlipTransform → List RBox → List RBox)) :=
  [("rotated_box", HFlip_rotated_box)]

/-- The per-class dispatch table of `ResizeTransform` after the
registration `ResizeTransform.register_type("rotated_box", Resize_rotated_box)`
(`transform.py` line 498). -/
noncomputable def ResizeTransform.registry :
    List (String × (ResizeTransform → List RBox → List RBox)) :=
  [("rotated_box", Resize_rotated_box)]

/-- The per-class dispatch table of `NoOpTransform` after the
registration on `transform.py` line 501 (the identity handler). -/
def NoOpTransform.registry : List (String × (NoOpTransform → List RBox → List RBox)) :=
  [("rotated_box", fun _ x => x)]

/-- C1: for positive sizes, `inverse()` swaps the old and new dimensions
and keeps the interpolation, and `apply_coords` followed by the
`apply_coords` of the inverse is the identity on every coordinate array
(exact over `ℚ`, hence within any floating-point tolerance). -/
theorem resize_inverse_roundtrip (h w new_h new_w : ℤ) (interp : Option ℤ)
    (hh : 0 < h) (hw : 0 < w) (hnh : 0 < new_h) (hnw : 0 < new_w)
    (coords : List (ℚ × ℚ)) :
    ((mkResizeTransform h w new_h new_w interp).inverse.h = new_h ∧
      (mkResizeTransform h w new_h new_w interp).inverse.w = new_w ∧
      (mkResizeTransform h w new_h new_w interp).inverse.new_h = h ∧
      (mkResizeTransform h w new_h new_w interp).inverse.new_w = w ∧
      (mkResizeTransform h w new_h new_w interp).inverse.interp =
        (mkResizeTransform h w new_h new_w interp).interp) ∧
    (mkResizeTransform h w new_h new_w interp).inverse.apply_coords
        ((mkResizeTransform h w new_h new_w interp).apply_coords coords) = coords := by
  have hwq : (w : ℚ) ≠ 0 := by exact_mod_cast hw.ne'
  have hhq : (h : ℚ) ≠ 0 := by exact_mod_cast hh.ne'
  have hnwq : (new_w : ℚ) ≠ 0 := by exact_mod_cast hnw.ne'
  have hnhq : (new_h : ℚ) ≠ 0 := by exact_mod_cast hnh.ne'
  refine ⟨⟨rfl, rfl, rfl, rfl, rfl⟩, ?_⟩
  induction coords with
  | nil => rfl
  | cons p rest ih =>
      obtain ⟨x, y⟩ := p
      simp only [ResizeTransform.apply_coords, ResizeTransform.inverse,
        mkResizeTransform, List.map_cons, List.cons.injEq] at ih ⊢
      refine ⟨Prod.ext ?_ ?_, ih⟩
      · field_simp
      · field_simp

/-- C1 witness: the round-trip theorem applied at sizes `(2, 3) → (4, 5)`
and the single coordinate `(7, 11)`. -/
theorem resize_inverse_roundtrip_witness :
    (mkResizeTransform 2 3 4 5 none).inverse.apply_coords
        ((mkResizeTransform 2 3 4 5 none).apply_coords [((7 : ℚ), (11 : ℚ))]) =
      [((7 : ℚ), (11 : ℚ))] :=
  (resize_inverse_roundtrip 2 3 4 5 none (by norm_num) (by norm_num) (by norm_num)
    (by norm_num) [((7 : ℚ), (11 : ℚ))]).2

/-- C2: a `RotationTransform` constructed with `expand = False` has a
non-invertible `inverse()` (the `NotImplementedError` branch); with
`expand = True`, `inverse()` is the `TransformList` of a rotation of the
bounded canvas by `-angle` with expansion followed by a crop of size
`(w, h)` centered in that canvas. -/
theorem rotation_inverse_cases (h w : ℤ) (angle : ℚ) (center : Option (ℝ × ℝ))
    (interp : Option ℤ) :
    (mkRotation h w angle false center interp).inverse = InvResult.notImplemented
    ∧ ∃ r : RotationTransform,
        (mkRotation h w angle true center interp).inverse =
          InvResult.ok (TransformVal.tlist
            [TransformVal.rotation r,
              TransformVal.crop ((r.bound_w - w).fdiv 2) ((r.bound_h - h).fdiv 2) w h])
        ∧ r.angle = -angle ∧ r.expand = true := by
  refine ⟨rfl, ⟨mkRotation (mkRotation h w angle true center interp).bound_h
    (mkRotation h w angle true center interp).bound_w (-angle) true none
    (some (mkRotation h w angle true center interp).interp), rfl, rfl, rfl⟩⟩

/-- C3 counterexample: `inverse()` of a concrete `LetterboxTransform`
and of a concrete `PerspectiveTransform` does not fail — it is not the
`NotImplementedError` outcome, contrary to the claim. -/
theorem letterbox_perspective_inverse_counterexample :
    LetterboxTransform.inverse ⟨(5, 5), 1, 0, 0⟩ ≠ InvResult.notImplemented
    ∧ PerspectiveTransform.inverse ⟨1, true, (0, 0)⟩ ≠ InvResult.notImplemented :=
  ⟨fun hcon => InvResult.noConfusion hcon, fun hcon => InvResult.noConfusion hcon⟩

/-- C3 amended: `inverse()` of every `LetterboxTransform` and of every
`PerspectiveTransform` silently returns `NoOpTransform()` — a best-effort
non-inverse — instead of failing. -/
theorem letterbox_perspective_inverse_noop (lt : LetterboxTransform)
    (pt : PerspectiveTransform) :
    lt.inverse = InvResult.ok TransformVal.noOp
    ∧ pt.inverse = InvResult.ok TransformVal.noOp :=
  ⟨rfl, rfl⟩

/-- C4: with `h_delta` present, `apply_image` routes the image through
the HSV stage, which replaces every pixel hue value `v` by
`(v + h_delta) % 180`; in particular hue 170 shifted by 200 becomes 10. -/
theorem colordistort_hue_shift (t : ColorDistortTransform) (d : ℤ)
    (hd : t.h_delta = some d) (img : List (ℤ × ℤ × ℤ)) (i : ℕ)
    (bgr2hsv hsv2bgr : List (ℤ × ℤ × ℤ) → List (ℤ × ℤ × ℤ)) :
    ColorDistortTransform.apply_image bgr2hsv hsv2bgr t img =
        hsv2bgr (t.hsvStage (bgr2hsv (t.preStage img)))
    ∧ ((t.hsvStage img)[i]?).map (fun p => p.1) =
        (img[i]?).map (fun p => (p.1 + d) % 180)
    ∧ ColorDistortTransform.hsvStage ⟨none, none, some 200, none⟩ [(170, 3, 4)] =
        [(10, 3, 4)] := by
  refine ⟨rfl, ?_, by decide⟩
  unfold ColorDistortTransform.hsvStage
  rw [hd]
  cases hsa : t.s_alpha with
  | none =>
      simp only [List.getElem?_map, Option.map_map]
      cases img[i]? <;> rfl
  | some a =>
      simp only [List.getElem?_map, Option.map_map]
      cases img[i]? <;> rfl

/-- C4 witness: the hue-shift theorem applied at
`h_delta = 200` and the single HSV pixel `(170, 3, 4)`. -/
theorem colordistort_hue_shift_witness :
    (((⟨none, none, some 200, none⟩ : ColorDistortTransform).hsvStage
        [(170, 3, 4)])[0]?).map (fun p => p.1) =
      ([((170 : ℤ), (3 : ℤ), (4 : ℤ))][0]?).map (fun p => (p.1 + 200) % 180) :=
  (colordistort_hue_shift ⟨none, none, some 200, none⟩ 200 rfl [(170, 3, 4)] 0
    id id).2.1

/-- C5: the registered rotated-box handler of `HFlipTransform` maps each
box `(cx, cy, w, h, a)` to `(width - cx, cy, w, h, -a)`, the dispatch
table of `HFlipTransform` maps the label `rotated_box` to that handler,
and with width 100 a box with center x 30 and angle 0 maps to center x
70 with angle 0. -/
theorem hflip_rotated_box_spec :
    (∀ (t : HFlipTransform) (boxes : List RBox) (i : ℕ),
        (HFlip_rotated_box t boxes)[i]? =
          (boxes[i]?).map fun b => ⟨t.width - b.cx, b.cy, b.w, b.h, -b.a⟩)
    ∧ HFlipTransform.registry.lookup "rotated_box" = some HFlip_rotated_box
    ∧ HFlip_rotated_box ⟨100⟩ [⟨30, 50, 20, 10, 0⟩] = [⟨70, 50, 20, 10, 0⟩] := by
  refine ⟨?_, rfl, ?_⟩
  · intro t boxes i
    simp only [HFlip_rotated_box, List.getElem?_map]
  · simp only [HFlip_rotated_box, List.map_cons, List.map_nil, List.cons.injEq,
      RBox.mk.injEq, and_true]
    norm_num

/-- C6: the registered rotated-box handler of `ResizeTransform`, with
scale factors `sx = new_w / w` and `sy = new_h / h`, maps each box to
center `(sx cx, sy cy)`, width `bw * sqrt((sx cos θ)² + (sy sin θ)²)`,
height `bh * sqrt((sx sin θ)² + (sy cos θ)²)` and angle
`arctan2(sx sin θ, sy cos θ)` converted to degrees, where `θ` is the
original angle in radians. -/
theorem resize_rotated_box_spec (t : ResizeTransform) (boxes : List RBox) :
    Resize_rotated_box t boxes = boxes.map fun b =>
      ⟨b.cx * ((t.new_w : ℝ) / (t.w : ℝ)),
        b.cy * ((t.new_h : ℝ) / (t.h : ℝ)),
        b.w * Real.sqrt (((t.new_w : ℝ) / (t.w : ℝ) * Real.cos (b.a * Real.pi / 180)) ^ 2 +
          ((t.new_h : ℝ) / (t.h : ℝ) * Real.sin (b.a * Real.pi / 180)) ^ 2),
        b.h * Real.sqrt (((t.new_w : ℝ) / (t.w : ℝ) * Real.sin (b.a * Real.pi / 180)) ^ 2 +
          ((t.new_h : ℝ) / (t.h : ℝ) * Real.cos (b.a * Real.pi / 180)) ^ 2),
        arctan2 ((t.new_w : ℝ) / (t.w : ℝ) * Real.sin (b.a * Real.pi / 180))
          ((t.new_h : ℝ) / (t.h : ℝ) * Real.cos (b.a * Real.pi / 180)) * 180 / Real.pi⟩ := by
  simp only [Resize_rotated_box, mul_one]

/-- C7: `PerspectiveTransform.apply_coords` sends each point `(x, y)`
through the homogeneous product `M ⬝ (x, y, 1)`; with the perspective
flag the first two components are divided by the third, without it they
are taken as is. -/
theorem perspective_apply_coords_spec (t : PerspectiveTransform) (coords : List (ℚ × ℚ)) :
    t.apply_coords coords = coords.map fun p =>
      if t.perspective then
        ((t.M 0 0 * p.1 + t.M 0 1 * p.2 + t.M 0 2) /
            (t.M 2 0 * p.1 + t.M 2 1 * p.2 + t.M 2 2),
          (t.M 1 0 * p.1 + t.M 1 1 * p.2 + t.M 1 2) /
            (t.M 2 0 * p.1 + t.M 2 1 * p.2 + t.M 2 2))
      else
        (t.M 0 0 * p.1 + t.M 0 1 * p.2 + t.M 0 2,
          t.M 1 0 * p.1 + t.M 1 1 * p.2 + t.M 1 2) := by
  simp only [PerspectiveTransform.apply_coords]
  refine List.map_congr_left fun p _ => ?_
  have hv : ∀ j : Fin 3, t.M.mulVec ![p.1, p.2, 1] j =
      t.M j 0 * p.1 + t.M j 1 * p.2 + t.M j 2 := by
    intro j
    simp [Matrix.mulVec, Matrix.dotProduct, Fin.sum_univ_three]
  rw [hv 0, hv 1, hv 2]

/-- C8: for every `RotationTransform` whose angle is an exact multiple
of 360 degrees (Python float modulo test), `apply_image` returns the
input image unchanged for every warp backend, and `apply_coords`
returns every coordinate array unchanged. -/
theorem rotation_multiple_360_identity
    (warp : (Fin 2 → Fin 3 → ℝ) → ℤ → ℤ → ℤ → Img → Img)
    (t : RotationTransform) (img : Img) (coords : List (ℝ × ℝ))
    (ha : floatMod t.angle 360 = 0) :
    RotationTransform.apply_image warp t img = some img
    ∧ t.apply_coords coords = coords := by
  constructor
  · unfold RotationTransform.apply_image
    rw [if_pos (Or.inr ha)]
  · unfold RotationTransform.apply_coords
    rw [if_pos (Or.inr ha)]

/-- C8 witness: the identity theorem applied to a concrete rotation
record with angle 360, a concrete 1 x 1 image and the coordinate array
`[(1, 2)]`. -/
theorem rotation_multiple_360_identity_witness :
    floatMod (360 : ℚ) 360 = 0 ∧
    RotationTransform.apply_coords
        ⟨5, 7, 360, true, (0, 0), 1, (0, 0), 7, 5, fun _ _ => 0, fun _ _ => 0⟩
        [(1, 2)] = [(1, 2)] :=
  ⟨by norm_num [floatMod],
    (rotation_multiple_360_identity (fun _ _ _ _ i => i)
      ⟨5, 7, 360, true, (0, 0), 1, (0, 0), 7, 5, fun _ _ => 0, fun _ _ => 0⟩
      ⟨1, 1, 1, fun _ _ _ => 0⟩ [(1, 2)] (by norm_num [floatMod])).2⟩

/-- C9 counterexample: on a 2 x 2 single-channel image of constant value
5 with region `(0, 0, 2, 2)`, the pixel at row 0, column 1 lies inside
the region clamped to the buffer bounds, yet `apply_image` leaves it at
5: the exclusive slice end `min(W - 1, x + w)` never reaches the last
column, contrary to the claim (only the pixel at `(0, 0)` is zeroed). -/
theorem cutout_clamp_counterexample :
    (CutoutTransform.apply_image ⟨(0, 0, 2, 2)⟩ ⟨2, 2, 1, fun _ _ _ => 5⟩).pix 0 0 0 = 0
    ∧ ¬ ((CutoutTransform.apply_image ⟨(0, 0, 2, 2)⟩
        ⟨2, 2, 1, fun _ _ _ => 5⟩).pix 0 1 0 = 0) := by
  decide

/-- C9 amended: `apply_image` zeroes exactly the pixels with
`y ≤ i < min(H - 1, y + h)` and `x ≤ j < min(W - 1, x + w)` — so a
region extending to or past the image edge leaves the last row and
column inside the image unzeroed — leaves every other pixel and the
image shape unchanged, and `apply_coords` is the identity. -/
theorem cutout_apply_spec (t : CutoutTransform) (img : Img) (i j k : ℕ)
    (coords : List (ℚ × ℚ)) :
    ((t.region.2.1 ≤ i ∧ i < min (img.H - 1) (t.region.2.1 + t.region.2.2.2) ∧
        t.region.1 ≤ j ∧ j < min (img.W - 1) (t.region.1 + t.region.2.2.1)) →
      (t.apply_image img).pix i j k = 0)
    ∧ (¬ (t.region.2.1 ≤ i ∧ i < min (img.H - 1) (t.region.2.1 + t.region.2.2.2) ∧
        t.region.1 ≤ j ∧ j < min (img.W - 1) (t.region.1 + t.region.2.2.1)) →
      (t.apply_image img).pix i j k = img.pix i j k)
    ∧ (t.apply_image img).H = img.H ∧ (t.apply_image img).W = img.W
    ∧ t.apply_coords coords = coords := by
  refine ⟨fun hin => ?_, fun hout => ?_, rfl, rfl, rfl⟩
  · simp only [CutoutTransform.apply_image]
    rw [if_pos hin]
  · simp only [CutoutTransform.apply_image]
    rw [if_neg hout]

/-- C9 witness: the amended theorem applied to a 4 x 4 image with region
`(1, 1, 1, 1)`, zeroing the pixel at `(1, 1)`. -/
theorem cutout_apply_spec_witness :
    (CutoutTransform.apply_image ⟨(1, 1, 1, 1)⟩ ⟨4, 4, 1, fun _ _ _ => 7⟩).pix 1 1 0 = 0 :=
  (cutout_apply_spec ⟨(1, 1, 1, 1)⟩ ⟨4, 4, 1, fun _ _ _ => 7⟩ 1 1 0 []).1 (by decide)

/-- C10: in the store-passing semantics of numpy arrays, the column
assignments of `ResizeTransform.apply_coords` write the scaled values
into the caller array itself and return that same array, while
`ExtentTransform.apply_coords` and `LetterboxTransform.apply_coords`
return a fresh `astype` copy and leave the caller array unchanged. -/
theorem apply_coords_aliasing (rt : ResizeTransform) (et : ExtentTransform)
    (lt : LetterboxTransform) (σ : Store) (p : ℕ) (hp : p < σ.length) :
    ((rt.apply_coords_st σ p).2 = p
      ∧ (rt.apply_coords_st σ p).1.getD p [] = rt.apply_coords (σ.getD p []))
    ∧ ((et.apply_coords_st σ p).2 ≠ p
      ∧ (et.apply_coords_st σ p).1.getD p [] = σ.getD p []
      ∧ (et.apply_coords_st σ p).1.getD (et.apply_coords_st σ p).2 [] =
          et.apply_coords (σ.getD p []))
    ∧ ((lt.apply_coords_st σ p).2 ≠ p
      ∧ (lt.apply_coords_st σ p).1.getD p [] = σ.getD p []
      ∧ (lt.apply_coords_st σ p).1.getD (lt.apply_coords_st σ p).2 [] =
          lt.apply_coords (σ.getD p [])) := by
  have hne : σ.length ≠ p := ne_of_gt hp
  refine ⟨⟨rfl, ?_⟩, ⟨hne, ?_, ?_⟩, ⟨hne, ?_, ?_⟩⟩
  · simp [ResizeTransform.apply_coords_st, List.getD_eq_getElem?_getD,
      List.getElem?_set_self, hp]
  · simp [ExtentTransform.apply_coords_st, List.getD_eq_getElem?_getD,
      List.getElem?_append, hp]
  · simp [ExtentTransform.apply_coords_st, List.getD_eq_getElem?_getD,
      List.getElem?_concat_length]
  · simp [LetterboxTransform.apply_coords_st, List.getD_eq_getElem?_getD,
      List.getElem?_append, hp]
  · simp [LetterboxTransform.apply_coords_st, List.getD_eq_getElem?_getD,
      List.getElem?_concat_length]

/-- C10 witness: the aliasing theorem applied to a one-array store
holding `[(1, 2)]` at index 0. -/
theorem apply_coords_aliasing_witness :
    0 < ([[((1 : ℚ), (2 : ℚ))]] : Store).length ∧
    ((mkResizeTransform 1 1 2 2 none).apply_coords_st [[((1 : ℚ), (2 : ℚ))]] 0).2 = 0 :=
  ⟨by decide,
    (apply_coords_aliasing (mkResizeTransform 1 1 2 2 none)
      ⟨(0, 0, 1, 1), (1, 1), 0, 0⟩ ⟨(1, 1), 1, 0, 0⟩
      [[((1 : ℚ), (2 : ℚ))]] 0 (by decide)).1.1⟩
